import Mathlib

/-!
Verification of the Elden Ring data-fusion pipeline (`fuse_data.py`):
a shallow embedding of its normalization, coercion, vulnerability-analysis
and weapon-recommendation logic, together with theorems settling the
specification claims about them.
-/

set_option maxHeartbeats 1000000
set_option maxRecDepth 4000

namespace EldenFuse

/-! ## Python string primitives over `List Char` -/

/-- Python `str.strip()` (default whitespace stripping). -/
def pyStrip (cs : List Char) : List Char :=
  ((cs.dropWhile Char.isWhitespace).reverse.dropWhile Char.isWhitespace).reverse

/-- Python `str.lower()`. -/
def pyLower (cs : List Char) : List Char := cs.map Char.toLower

/-- Python `str.capitalize()`: first character uppercased, rest lowercased. -/
def pyCapitalize (cs : List Char) : List Char :=
  match cs with
  | [] => []
  | c :: rest => c.toUpper :: rest.map Char.toLower

/-- Python `str.split(sep)` for a one-character separator: splitting the
empty string yields one empty part, so the result is never empty. -/
def pySplit (sep : Char) : List Char → List (List Char)
  | [] => [[]]
  | c :: rest =>
    match pySplit sep rest with
    | [] => [[c]]
    | h :: t => if c == sep then [] :: h :: t else (c :: h) :: t

/-- Helper for `collapseWs`: the flag records whether the previous character
was whitespace (so only the first character of a run emits a space). -/
def collapseGo : Bool → List Char → List Char
  | _, [] => []
  | prev, c :: rest =>
    if c.isWhitespace then
      if prev then collapseGo true rest else ' ' :: collapseGo true rest
    else c :: collapseGo false rest

/-- Model of Python whitespace-collapsing (the regex sub of one-or-more whitespace to a single space): collapse each maximal whitespace run to one space. -/
def collapseWs (cs : List Char) : List Char := collapseGo false cs

/-- Whether `needle` occurs at the head of `hay`. -/
def leadsWith : List Char → List Char → Bool
  | [], _ => true
  | _ :: _, [] => false
  | a :: as, b :: bs => a == b && leadsWith as bs

/-- Python substring test `needle in hay` (empty needle always matches). -/
def hasSub (needle : List Char) : List Char → Bool
  | [] => needle.isEmpty
  | c :: rest => leadsWith needle (c :: rest) || hasSub needle rest

/-! ## Python numeric parsing -/

def natOfDigitsAux : List Char → Nat → Option Nat
  | [], acc => some acc
  | c :: rest, acc =>
    if c.isDigit then natOfDigitsAux rest (acc * 10 + (c.toNat - 48)) else none

/-- Parse a nonempty all-digit string to a natural number. -/
def natOfDigits : List Char → Option Nat
  | [] => none
  | c :: rest => natOfDigitsAux (c :: rest) 0

/-- Unsigned part of a Python decimal float literal: digits with an optional
fractional part (at least one digit overall). -/
def pyFloatUnsigned (cs : List Char) : Option ℚ :=
  match pySplit '.' cs with
  | [a] => (natOfDigits a).map (fun n => (n : ℚ))
  | [a, b] =>
    if a.isEmpty && b.isEmpty then none
    else
      match (if a.isEmpty then some 0 else natOfDigits a),
            (if b.isEmpty then some 0 else natOfDigits b) with
      | some ip, some fp => some ((ip : ℚ) + (fp : ℚ) / (10 : ℚ) ^ b.length)
      | _, _ => none
  | _ => none

/-- Model of Python `float(s)`: strips surrounding whitespace; accepts an
optionally signed decimal literal.  (Exponent notation and special forms such
as `inf`/`nan` are not modelled; no input this pipeline feeds to `float`
uses them.)  `none` models a raised `ValueError`. -/
def pyFloat (cs : List Char) : Option ℚ :=
  match pyStrip cs with
  | '-' :: rest => (pyFloatUnsigned rest).map (fun q => -q)
  | '+' :: rest => pyFloatUnsigned rest
  | rest => pyFloatUnsigned rest

/-! ## Cells and coercion utilities

A pandas cell as the enrichers see it: missing / NaN, a string, or a
number.  `safe_float` / `safe_str` mirror the utilities in `fuse_data.py`. -/

inductive Cell where
  | nan
  | str (s : String)
  | num (q : ℚ)
deriving DecidableEq, Repr

/-- Coercion `safe_float(val, default)`: NaN goes to the default; otherwise
`float(str(val).replace(",", ""))`, with the default on parse failure.
For a numeric cell the Python `str`/`float` round trip returns the same
value, so we return it directly. -/
def safe_float (c : Cell) (default : Option ℚ) : Option ℚ :=
  match c with
  | .nan => default
  | .num q => some q
  | .str s =>
    match pyFloat (s.data.filter (fun ch => ch != ',')) with
    | some q => some q
    | none => default

/-- Coercion `safe_str(val, default)` on a text column (pandas reads these columns as
strings or NaN, modelled as `Option String`): NaN goes to the default,
otherwise `str(val).strip()`. -/
def safe_str (c : Option String) (default : String) : String :=
  match c with
  | none => default
  | some s => (pyStrip s.data).asString

/-- Model of Python `int(x)`: raises (`.error`) on NaN, truncates a float
toward zero, and parses an optionally signed integer literal from a string,
raising on anything else. -/
def pyInt : Cell → Except String Int
  | .nan => .error "cannot convert float NaN to integer"
  | .num q => .ok (if 0 ≤ q then ⌊q⌋ else ⌈q⌉)
  | .str s =>
    match pyStrip s.data with
    | '-' :: rest => match natOfDigits rest with
      | some n => .ok (-(n : Int))
      | none => .error "invalid literal for int()"
    | '+' :: rest => match natOfDigits rest with
      | some n => .ok (n : Int)
      | none => .error "invalid literal for int()"
    | rest => match natOfDigits rest with
      | some n => .ok (n : Int)
      | none => .error "invalid literal for int()"

/-! ## Association-list models of Python dicts -/

/-- First-match lookup (Python dicts have unique keys, so this models
`d[k]` / `d.get(k)`). -/
def lookup? (m : List (String × α)) (k : String) : Option α :=
  match m with
  | [] => none
  | (k', v) :: rest => if k' == k then some v else lookup? rest k

/-- Lookup `d.get(k, default)`. -/
def lookupD (m : List (String × α)) (k : String) (d : α) : α :=
  (lookup? m k).getD d

/-- Assignment `d[k] = v`: overwrite in place, or append a new key. -/
def dictInsert (m : List (String × α)) (k : String) (v : α) : List (String × α) :=
  match m with
  | [] => [(k, v)]
  | (k', v') :: rest =>
    if k' == k then (k, v) :: rest else (k', v') :: dictInsert rest k v

/-! ## Name normalization and fuzzy lookup -/

/-- Normalization `norm(name)` on a string: whitespace-collapse of the lowercased, stripped name.
(The `pd.isna` branch returns `""`; the call sites modelled here always pass
strings.) -/
def normStr (s : String) : String :=
  (collapseWs (pyStrip (pyLower s.data))).asString

/-- Model of `difflib.get_close_matches(k, keys, n=1, cutoff)`: the similarity
scorer (`SequenceMatcher.ratio` against the fixed target) is a parameter
`sim`; the result is the best key whose score reaches the cutoff, or none.
Ties on the score go to the lexicographically larger key, as
`heapq.nlargest` does on (score, key) pairs. -/
def bmStep (sim : String → ℚ) (cutoff : ℚ) (acc : Option String) (k : String) :
    Option String :=
  if sim k < cutoff then acc
  else
    match acc with
    | none => some k
    | some b =>
      if sim k > sim b || (sim k == sim b && decide (b < k)) then some k else some b

def bestMatch (sim : String → ℚ) (cutoff : ℚ) (keys : List String) : Option String :=
  keys.foldl (bmStep sim cutoff) none

/-- Lookup `fuzzy_get(lookup_dict, key, cutoff)`: exact hit on the normalized key,
else the single best approximate match at or above the cutoff, else `none`. -/
def fuzzy_get (d : List (String × α)) (key : String) (sim : String → ℚ) (cutoff : ℚ) :
    Option α :=
  let k := normStr key
  match lookup? d k with
  | some v => some v
  | none =>
    match bestMatch sim cutoff (d.map (fun kv => kv.1)) with
    | some m => lookup? d m
    | none => none

/-! ## Data model: boss stat records and weapons -/

/-- One row of `elden_ring_boss_stats_clean.csv` as `analyze_boss_vulnerability`
reads it (`r.to_dict()`): negation, flag and numeric columns are pandas
numeric cells (`Cell`), resistance columns are strings or NaN
(`Option String`, `none` modelling NaN / a missing column, which `pd.notna`
rejects alike).  `stats.get(col, 0)` for a missing flag column is modelled by
constructing the record with `.num 0` there. -/
structure BossStats where
  neg_standard : Cell
  neg_slash : Cell
  neg_strike : Cell
  neg_pierce : Cell
  res_hemorrhage : Option String
  res_frostbite : Option String
  res_poison : Option String
  res_scarlet_rot : Option String
  inflicts_bleed : Cell
  inflicts_frostbite : Cell
  inflicts_scarlet_rot : Cell
  inflicts_poison : Cell
  inflicts_madness : Cell
  inflicts_sleep : Cell
  dmg_standard : Cell
  dmg_slash : Cell
  dmg_strike : Cell
  dmg_pierce : Cell
  dmg_magic : Cell
  dmg_fire : Cell
  dmg_lightning : Cell
  dmg_holy : Cell
  parryable_col : Cell
  stance_col : Cell
  defense_col : Cell
deriving Repr

/-- A stat record with every column missing, for building examples. -/
def emptyStats : BossStats :=
  ⟨.nan, .nan, .nan, .nan, none, none, none, none,
   .num 0, .num 0, .num 0, .num 0, .num 0, .num 0,
   .num 0, .num 0, .num 0, .num 0, .num 0, .num 0, .num 0, .num 0,
   .nan, .nan, .nan⟩

/-- The five scaling grades of one row of `elden_ring_weapon.csv`
(each already passed through `safe_str(·, "-")`). -/
structure Scaling where
  sStr : String
  sDex : String
  sInt : String
  sFai : String
  sArc : String
deriving Repr, DecidableEq

/-- An enriched weapon as the recommendation engine and the index builder see
it (the fields of the dicts produced by `enrich_weapons` that they read). -/
structure Weapon where
  name : String
  category : String
  damage_type : String
  passive_effect : String
  primary_scaling : String
  scaling : Option Scaling
deriving Repr, DecidableEq

/-! ## Weapon enrichment: primary scaling stat (`enrich_weapons`) -/

/-- The fixed grade order `{"S": 6, "A": 5, "B": 4, "C": 3, "D": 2, "E": 1,
"-": 0}`, with `grade_order.get(x, 0)` giving 0 to anything else. -/
def grade_order (g : String) : Nat :=
  if g = "S" then 6 else if g = "A" then 5 else if g = "B" then 4
  else if g = "C" then 3 else if g = "D" then 2 else if g = "E" then 1 else 0

/-- Iteration `scaling.items()` in the dict insertion order Str, Dex, Int, Fai, Arc. -/
def scalingItems (sc : Scaling) : List (String × String) :=
  [("Str", sc.sStr), ("Dex", sc.sDex), ("Int", sc.sInt),
   ("Fai", sc.sFai), ("Arc", sc.sArc)]

/-- Python `max(l, key=f)`: keeps the first maximum (replaces the running
best only on a strict improvement). -/
def pyMaxBy (f : α → Nat) : α → List α → α
  | best, [] => best
  | best, x :: xs => if f x > f best then pyMaxBy f x xs else pyMaxBy f best xs

/-- Primary scaling stat from `enrich_weapons`: `"None"` when the scaling
lookup failed (empty dict) or when the best grade maps to 0, otherwise the
argmax stat under `grade_order` (first wins on ties). -/
def primary_scaling (scaling : Option Scaling) : String :=
  match scaling with
  | none => "None"
  | some sc =>
    match scalingItems sc with
    | [] => "None"
    | it :: rest =>
      let best := pyMaxBy (fun kv => grade_order kv.2) it rest
      if grade_order best.2 > 0 then best.1 else "None"

/-! ## Boss vulnerability analysis (`analyze_boss_vulnerability`) -/

/-- The physical-negation dict in its insertion order. -/
def physNegPairs (s : BossStats) : List (String × Option ℚ) :=
  [("Standard", safe_float s.neg_standard none),
   ("Slash", safe_float s.neg_slash none),
   ("Strike", safe_float s.neg_strike none),
   ("Pierce", safe_float s.neg_pierce none)]

/-- Filtering `valid_phys`: the negation entries whose value is not None, order kept. -/
def validPhys (s : BossStats) : List (String × ℚ) :=
  (physNegPairs s).filterMap (fun kv => kv.2.map (fun v => (kv.1, v)))

/-- Python `min(d, key=d.get)`: keeps the first minimum (replaces the running
best only on a strict improvement). -/
def pyMinByVal : (String × ℚ) → List (String × ℚ) → (String × ℚ)
  | best, [] => best
  | best, x :: xs => if x.2 < best.2 then pyMinByVal x xs else pyMinByVal best xs

/-- Analysis `weakest_physical`: `"Unknown"` if no negation value is available,
otherwise the type with the minimum negation (first wins on ties). -/
def weakest_physical (s : BossStats) : String :=
  match validPhys s with
  | [] => "Unknown"
  | kv :: rest => (pyMinByVal kv rest).1

/-- The status→column map in its insertion order. -/
def statusPairs (s : BossStats) : List (String × Option String) :=
  [("Hemorrhage", s.res_hemorrhage), ("Frostbite", s.res_frostbite),
   ("Poison", s.res_poison), ("Scarlet Rot", s.res_scarlet_rot)]

/-- Test `pd.notna(val) and str(val).strip().lower() != "immune"`. -/
def isVulnCell : Option String → Bool
  | none => false
  | some v => !(pyLower (pyStrip v.data) == "immune".data)

/-- List `status_vulns`: the non-immune present statuses, in fixed map order. -/
def statusVulns (s : BossStats) : List String :=
  (statusPairs s).filterMap (fun kv => if isVulnCell kv.2 then some kv.1 else none)

/-- Mapping `status_details`: status to `str(val).strip()` for the same statuses. -/
def statusDetails (s : BossStats) : List (String × String) :=
  (statusPairs s).filterMap (fun kv =>
    match kv.2 with
    | some v =>
      if !(pyLower (pyStrip v.data) == "immune".data) then
        some (kv.1, (pyStrip v.data).asString)
      else none
    | none => none)

/-- Parsing `parse_first_resistance`: "290 / 332 / 430 / 720" gives 290.0; `none` here
models `float("inf")` for the immune sentinel or an unparseable first tier.
The tiers are split on `"/"`; commas inside the first tier are stripped as
thousands separators before `float`.  (The `pd.isna` branch also yields
infinity; both call sites pass strings.) -/
def parse_first_resistance (s : String) : Option ℚ :=
  if pyLower (pyStrip s.data) == "immune".data then none
  else
    match pySplit '/' s.data with
    | [] => none
    | p :: _ => pyFloat ((pyStrip p).filter (fun ch => ch != ','))

/-- Strict order on resistance values, `none` being infinity. -/
def resLT : Option ℚ → Option ℚ → Bool
  | none, _ => false
  | some _, none => true
  | some a, some b => a < b

/-- Reflexive order on resistance values, `none` being infinity. -/
def resLE : Option ℚ → Option ℚ → Bool
  | _, none => true
  | none, some _ => false
  | some a, some b => a ≤ b

/-- Stable ascending insertion for `(status, resistance)` pairs: the new
element goes before the first position that is not strictly smaller, so
elements with equal keys keep their original order, matching the stable Python
`list.sort`. -/
def insertAsc (x : String × Option ℚ) : List (String × Option ℚ) → List (String × Option ℚ)
  | [] => [x]
  | y :: ys => if resLT y.2 x.2 then y :: insertAsc x ys else x :: y :: ys

/-- Stable ascending sort by resistance (agrees with the stable Python sort). -/
def sortAsc : List (String × Option ℚ) → List (String × Option ℚ)
  | [] => []
  | x :: xs => insertAsc x (sortAsc xs)

/-- Ranking `rank_status_vulnerabilities`: pair each vulnerable status with the first
numeric tier of its resistance (`status_details.get(status, "")`), sorted
ascending. -/
def rank_status_vulnerabilities (vulns : List String) (details : List (String × String)) :
    List (String × Option ℚ) :=
  sortAsc (vulns.map (fun st => (st, parse_first_resistance (lookupD details st ""))))

/-! ## Weapon cross-reference index (`build_weapon_index`) -/

/-- The damage-type tokens of a weapon: split on `"/"`, strip, capitalize
(the index builder strips once more before capitalizing, which is the same). -/
def dmgTokens (dt : String) : List String :=
  (pySplit '/' dt.data).map (fun p => (pyCapitalize (pyStrip p)).asString)

def fourPhysTypes : List String := ["Standard", "Slash", "Strike", "Pierce"]

/-- Buckets of a `defaultdict(list)`: association list in first-insertion key
order, values appended in arrival order. -/
abbrev Buckets := List (String × List Weapon)

def addToBucket (m : Buckets) (k : String) (w : Weapon) : Buckets :=
  match m with
  | [] => [(k, [w])]
  | (k', ws) :: rest =>
    if k' == k then (k', ws ++ [w]) :: rest else (k', ws) :: addToBucket rest k w

/-- Access `bucket[k]`, the empty list when the key was never inserted. -/
def bucketOf (m : Buckets) (k : String) : List Weapon := lookupD m k []

/-- Damage-type indexing of one weapon: each token in the four physical types
adds the weapon to the bucket of that token; anything else is dropped silently. -/
def indexDamageStep (m : Buckets) (w : Weapon) : Buckets :=
  (dmgTokens w.damage_type).foldl
    (fun m' dt => if fourPhysTypes.contains dt then addToBucket m' dt w else m') m

/-- The `by_damage_type` index over a weapon list. -/
def by_damage_type (weapons : List Weapon) : Buckets :=
  weapons.foldl indexDamageStep []

/-- The ordered keyword → status table of `build_weapon_index`. -/
def indexStatusKeywords : List (String × String) :=
  [("Blood Loss", "Hemorrhage"), ("Bleed", "Hemorrhage"), ("Frost", "Frostbite"),
   ("Frostbite", "Frostbite"), ("Poison", "Poison"), ("Scarlet Rot", "Scarlet Rot"),
   ("Rot", "Scarlet Rot"), ("Madness", "Madness"), ("Sleep", "Sleep"),
   ("Death", "Death Blight")]

/-- First keyword (case-insensitively) contained in the passive text wins. -/
def firstKeywordStatus : List (String × String) → List Char → Option String
  | [], _ => none
  | (kw, st) :: rest, pl =>
    if hasSub (pyLower kw.data) pl then some st else firstKeywordStatus rest pl

/-- The status bucket (if any) the index builder files a weapon under. -/
def passiveStatusIdx (passive : String) : Option String :=
  if passive == "" || passive == "None" || passive == "No passive effects" then none
  else firstKeywordStatus indexStatusKeywords (pyLower passive.data)

/-- The `by_status` index over a weapon list. -/
def by_status_idx (weapons : List Weapon) : Buckets :=
  weapons.foldl
    (fun m w =>
      match passiveStatusIdx w.passive_effect with
      | some st => addToBucket m st w
      | none => m) []

/-- The weapon index as the recommendation engine consumes it (the category
and scaling groupings of `build_weapon_index` are direct groupings it never
reads). -/
structure WeaponIndex where
  by_damage_type : Buckets
  by_status : Buckets
deriving Repr

def build_weapon_index (weapons : List Weapon) : WeaponIndex :=
  ⟨by_damage_type weapons, by_status_idx weapons⟩

/-! ## Recommendation engine (`recommend_weapons`) -/

def tierScores : List Nat := [10, 7, 4, 2]

/-- Weights `status_weights`: the i-th ranked status gets `[10, 7, 4, 2]` at index i,
1 beyond the fourth (dict built by repeated assignment). -/
def statusWeights (ranked : List (String × Option ℚ)) : List (String × Nat) :=
  ranked.enum.foldl (fun m p => dictInsert m p.2.1 (tierScores.getD p.1 1)) []

/-- The model of `avg_others` in the code: the mean over the values *different
from the weakest value*, with denominator `max(len(vals) - 1, 1)` (the Python
`len(vals) - 1` being at most `-1` below the Nat truncation makes no
difference under the `max` with 1). -/
def codeAvgOthers (vals : List ℚ) (weakestVal : ℚ) : ℚ :=
  ((vals.filter (fun v => v != weakestVal)).sum) / ((max (vals.length - 1) 1 : Nat) : ℚ)

/-- Bonus `phys_bonus`: 3 when the negation of the weakest type is strictly below
`codeAvgOthers`, else 1; 1 when no negation data or no known weakest type. -/
def physBonus (physNeg : List (String × ℚ)) (weakest : String) : Nat :=
  if physNeg.isEmpty || weakest == "Unknown" then 1
  else
    match lookup? physNeg weakest with
    | none => 1
    | some weakestVal =>
      let vals := physNeg.map (fun kv => kv.2)
      if vals.isEmpty then 1
      else if weakestVal < codeAvgOthers vals weakestVal then 3 else 1

/-- The own status-to-keyword-list table of the engine, in order. -/
def recStatusKeywords : List (String × List String) :=
  [("Hemorrhage", ["blood loss", "hemorrhage", "bleed"]),
   ("Frostbite", ["frostbite", "frost"]),
   ("Poison", ["poison"]),
   ("Scarlet Rot", ["scarlet rot", "rot"]),
   ("Madness", ["madness"]),
   ("Sleep", ["sleep"]),
   ("Death Blight", ["death", "blight"])]

def firstStatusOf : List (String × List String) → List Char → Option String
  | [], _ => none
  | (st, kws) :: rest, pl =>
    if kws.any (fun kw => hasSub kw.data pl) then some st else firstStatusOf rest pl

/-- Detection `get_weapon_status`: the status the lowercased passive text of a weapon
matches, first status whose keyword list hits winning. -/
def get_weapon_status (w : Weapon) : Option String :=
  let passive := pyLower w.passive_effect.data
  if passive == "none".data || passive == "no passive effects".data || passive == "".data
  then none
  else firstStatusOf recStatusKeywords passive

/-- All weapons gathered from the damage-type buckets then the status
buckets, in iteration order. -/
def allIndexWeapons (idx : WeaponIndex) : List Weapon :=
  (idx.by_damage_type.map (fun kv => kv.2)).flatten ++
  (idx.by_status.map (fun kv => kv.2)).flatten

def dedupeGo : List String → List Weapon → List Weapon
  | _, [] => []
  | seen, w :: rest =>
    if seen.contains w.name then dedupeGo seen rest
    else w :: dedupeGo (w.name :: seen) rest

/-- Deduplicate by weapon name, keeping first occurrences. -/
def dedupeByName (ws : List Weapon) : List Weapon := dedupeGo [] ws

/-- The physical contribution to the score of a weapon: the bonus when its
damage-type tokens contain the weakest physical type, else nothing. -/
def physPart (physNeg : List (String × ℚ)) (weakest : String) (w : Weapon) : Nat :=
  if (dmgTokens w.damage_type).contains weakest then physBonus physNeg weakest else 0

/-- Score one weapon and accumulate its reason strings, transcribing the
scoring block of `recommend_weapons` (physical match, status match, and the
final +1 line for a vulnerable status with no reasons recorded). -/
def scoreWeapon (physNeg : List (String × ℚ)) (weakest : String)
    (weights : List (String × Nat)) (vulns : List String)
    (details : List (String × String)) (w : Weapon) : Nat × List String :=
  let bonus := physBonus physNeg weakest
  let step1 : Nat × List String :=
    if (dmgTokens w.damage_type).contains weakest then
      (bonus, if bonus > 1 then ["Exploits " ++ weakest ++ " weakness"] else [])
    else (0, [])
  let step2 : Nat × List String :=
    match get_weapon_status w with
    | some st =>
      match lookup? weights st with
      | some n =>
        (step1.1 + n,
         step1.2 ++ ["Applies " ++ st ++ " (boss resistance: " ++ lookupD details st "" ++ ")"])
      | none => step1
    | none => step1
  match get_weapon_status w with
  | some st => if vulns.contains st && step2.2.isEmpty then (step2.1 + 1, step2.2) else step2
  | none => step2

structure ScoredWeapon where
  weapon : Weapon
  score : Nat
  reason : String
deriving Repr, DecidableEq

/-- Stable descending insertion by score: the new element goes before the
first position whose score is not strictly greater, so ties keep original
order, matching the stable Python sort with `reverse=True`. -/
def insertDesc (x : ScoredWeapon) : List ScoredWeapon → List ScoredWeapon
  | [] => [x]
  | y :: ys => if y.score > x.score then y :: insertDesc x ys else x :: y :: ys

def sortDesc : List ScoredWeapon → List ScoredWeapon
  | [] => []
  | x :: xs => insertDesc x (sortDesc xs)

/-- The scored candidate list of `recommend_weapons`: deduplicated index
weapons with a positive score and their reason string, sorted descending by
score (stable). -/
def scoredCandidates (weakest : String) (vulns : List String) (idx : WeaponIndex)
    (details : List (String × String)) (physNeg : List (String × ℚ)) :
    List ScoredWeapon :=
  let weights := statusWeights (rank_status_vulnerabilities vulns details)
  sortDesc ((dedupeByName (allIndexWeapons idx)).filterMap (fun w =>
    let sr := scoreWeapon physNeg weakest weights vulns details w
    if sr.1 > 0 then
      some ⟨w, sr.1,
        if sr.2.isEmpty then "Deals " ++ w.damage_type ++ " damage"
        else String.intercalate "; " sr.2⟩
    else none))

/-! ## Build distribution and fallback (`recommend_weapons`, tail) -/

inductive Build where
  | strength
  | dexterity
  | intelligence
  | faith
  | arcane
deriving DecidableEq, Repr

/-- Lookup `scaling_to_build.get(primary_scaling)` (`None` for anything else). -/
def scalingToBuild (ps : String) : Option Build :=
  if ps == "Str" then some .strength
  else if ps == "Dex" then some .dexterity
  else if ps == "Int" then some .intelligence
  else if ps == "Fai" then some .faith
  else if ps == "Arc" then some .arcane
  else none

/-- The fields a recommendation entry carries. -/
structure RecEntry where
  name : String
  category : String
  damage_type : String
  passive_effect : String
  reason : String
deriving Repr, DecidableEq

def mkRecEntry (sw : ScoredWeapon) : RecEntry :=
  ⟨sw.weapon.name, sw.weapon.category, sw.weapon.damage_type,
   sw.weapon.passive_effect, sw.reason⟩

/-- The five per-archetype pick lists. -/
structure Recs where
  strength : List RecEntry
  dexterity : List RecEntry
  intelligence : List RecEntry
  faith : List RecEntry
  arcane : List RecEntry
deriving Repr, DecidableEq

def Recs.get (r : Recs) : Build → List RecEntry
  | .strength => r.strength
  | .dexterity => r.dexterity
  | .intelligence => r.intelligence
  | .faith => r.faith
  | .arcane => r.arcane

def Recs.push (r : Recs) (b : Build) (e : RecEntry) : Recs :=
  match b with
  | .strength => { r with strength := r.strength ++ [e] }
  | .dexterity => { r with dexterity := r.dexterity ++ [e] }
  | .intelligence => { r with intelligence := r.intelligence ++ [e] }
  | .faith => { r with faith := r.faith ++ [e] }
  | .arcane => { r with arcane := r.arcane ++ [e] }

/-- Primary distribution step: a scored weapon joins its primary-scaling
archetype while that archetype holds fewer than 2 picks. -/
def distStep (recs : Recs) (sw : ScoredWeapon) : Recs :=
  match scalingToBuild sw.weapon.primary_scaling with
  | some b => if (recs.get b).length < 2 then recs.push b (mkRecEntry sw) else recs
  | none => recs

def distribute (scored : List ScoredWeapon) : Recs :=
  scored.foldl distStep ⟨[], [], [], [], []⟩

/-- The `scaling_to_build.items()` iteration of the fallback loop. -/
def buildStats : List (String × Build) :=
  [("Str", .strength), ("Dex", .dexterity), ("Int", .intelligence),
   ("Fai", .faith), ("Arc", .arcane)]

/-- Access `w.get("scaling", {}).get(stat, "-")`. -/
def scalingGet (sc : Option Scaling) (stat : String) : String :=
  match sc with
  | none => "-"
  | some s =>
    if stat == "Str" then s.sStr
    else if stat == "Dex" then s.sDex
    else if stat == "Int" then s.sInt
    else if stat == "Fai" then s.sFai
    else if stat == "Arc" then s.sArc
    else "-"

/-- Fallback for one archetype: when it received zero picks and candidates
exist, scan the top 10 scored weapons and take those with a grade of at
least "D" (value 2) in the governing stat, still capped at 2. -/
def fbStep (scored : List ScoredWeapon) (recs : Recs) (sb : String × Build) : Recs :=
  if (recs.get sb.2).isEmpty && !scored.isEmpty then
    (scored.take 10).foldl
      (fun r sw =>
        if grade_order (scalingGet sw.weapon.scaling sb.1) ≥ 2 && (r.get sb.2).length < 2
        then r.push sb.2 (mkRecEntry sw)
        else r) recs
  else recs

def fallbackFill (scored : List ScoredWeapon) (recs : Recs) : Recs :=
  buildStats.foldl (fbStep scored) recs

/-- The returned mapping: archetypes in dict order, empty ones dropped. -/
def recsOutput (recs : Recs) : List (String × List RecEntry) :=
  ([("strength", recs.strength), ("dexterity", recs.dexterity),
    ("intelligence", recs.intelligence), ("faith", recs.faith),
    ("arcane", recs.arcane)]).filter (fun kv => !kv.2.isEmpty)

/-- Engine `recommend_weapons`: score all indexed weapons, distribute into the five
archetypes, run the fallback, and drop empty archetypes. -/
def recommend_weapons (weakest : String) (vulns : List String) (idx : WeaponIndex)
    (details : List (String × String)) (physNeg : List (String × ℚ)) :
    List (String × List RecEntry) :=
  let scored := scoredCandidates weakest vulns idx details physNeg
  recsOutput (fallbackFill scored (distribute scored))

/-! ## The full vulnerability profile (`analyze_boss_vulnerability` return
value and the no-stats fallback dict in `enrich_bosses`) -/

/-- A value of the profile dict (each variant records the shape the code
actually stores under the corresponding key). -/
inductive JVal where
  | null
  | s (v : String)
  | q (v : ℚ)
  | b (v : Bool)
  | strs (v : List String)
  | kvs (v : List (String × String))
  | qmap (v : List (String × ℚ))
  | recsV (v : List (String × List RecEntry))
deriving Repr

/-- Test `stats.get(col, 0) == 1` on a numeric flag cell (NaN and strings compare
unequal to 1 in Python). -/
def cellEqOne : Cell → Bool
  | .num q => q == 1
  | _ => false

def inflictPairs (s : BossStats) : List (String × Cell) :=
  [("Bleed", s.inflicts_bleed), ("Frostbite", s.inflicts_frostbite),
   ("Scarlet Rot", s.inflicts_scarlet_rot), ("Poison", s.inflicts_poison),
   ("Madness", s.inflicts_madness), ("Sleep", s.inflicts_sleep)]

def inflictsList (s : BossStats) : List String :=
  (inflictPairs s).filterMap (fun kv => if cellEqOne kv.2 then some kv.1 else none)

def dmgPairs (s : BossStats) : List (String × Cell) :=
  [("Standard", s.dmg_standard), ("Slash", s.dmg_slash), ("Strike", s.dmg_strike),
   ("Pierce", s.dmg_pierce), ("Magic", s.dmg_magic), ("Fire", s.dmg_fire),
   ("Lightning", s.dmg_lightning), ("Holy", s.dmg_holy)]

def activeDmg (s : BossStats) : List String :=
  (dmgPairs s).filterMap (fun kv => if cellEqOne kv.2 then some kv.1 else none)

def dominant_damage (s : BossStats) : String :=
  if (activeDmg s).isEmpty then "Unknown"
  else String.intercalate ", " (activeDmg s)

def parryableJVal (s : BossStats) : JVal :=
  match safe_float s.parryable_col none with
  | some q => .b (q == 1)
  | none => .s "Unknown"

def optQJVal : Option ℚ → JVal
  | some q => .q q
  | none => .null

/-- The dict `analyze_boss_vulnerability` returns, keys in literal order. -/
def analyzeVuln (s : BossStats) (idx : WeaponIndex) : List (String × JVal) :=
  [("weakest_physical", .s (weakest_physical s)),
   ("physical_negation", .qmap (validPhys s)),
   ("status_vulnerabilities", .strs (statusVulns s)),
   ("status_resistance_values", .kvs (statusDetails s)),
   ("inflicts", .strs (inflictsList s)),
   ("dominant_damage", .s (dominant_damage s)),
   ("parryable", parryableJVal s),
   ("stance", optQJVal (safe_float s.stance_col none)),
   ("defense", optQJVal (safe_float s.defense_col none)),
   ("recommended_weapons",
    .recsV (recommend_weapons (weakest_physical s) (statusVulns s) idx
      (statusDetails s) (validPhys s)))]

/-- The literal fallback dict `enrich_bosses` substitutes when no stat record
resolves for the boss. -/
def fallbackVuln : List (String × JVal) :=
  [("weakest_physical", .s "Unknown"),
   ("status_vulnerabilities", .strs []),
   ("inflicts", .strs []),
   ("dominant_damage", .s "Unknown"),
   ("parryable", .s "Unknown"),
   ("stance", .null),
   ("defense", .null),
   ("recommended_weapons", .recsV [])]

/-- Branch `analyze_boss_vulnerability(stats, weapon_index) if stats else` the fallback dict. -/
def bossVulnFields (stats : Option BossStats) (idx : WeaponIndex) :
    List (String × JVal) :=
  match stats with
  | some s => analyzeVuln s idx
  | none => fallbackVuln

/-! ## Weapon-row enrichment (`enrich_weapons`, per-row body) for the
malformed-field claim -/

/-- A raw row of `weapons.csv` as `enrich_weapons` reads it: text columns are
strings or NaN; `weight` is a numeric cell; `dlc` is `row.get("dlc", 0)`
(`none` models the whole column being absent, defaulting to the integer 0). -/
structure WeaponRow where
  name : Option String
  description : Option String
  category : Option String
  damage_type_col : Option String
  requirements_dict : List (String × ℚ)
  passive_effect_col : Option String
  skill_col : Option String
  fp_cost_col : Option String
  weight_col : Cell
  dlc_col : Option Cell
deriving Repr

/-- Base damage per element from the auxiliary stats row (five `safe_str`
fields). -/
structure BaseDmg where
  phy : String
  mag : String
  fir : String
  lit : String
  hol : String
deriving Repr, DecidableEq

/-- The enriched weapon dict `enrich_weapons` appends for one row. -/
structure EnrichedWeapon where
  name : String
  description : String
  lore : String
  category : String
  damage_type : String
  requirements : List (String × ℚ)
  scaling : Option Scaling
  primary_scaling : String
  base_damage : Option BaseDmg
  passive_effect : String
  skill : String
  fp_cost : String
  weight : ℚ
  dlc : Int
deriving Repr, DecidableEq

/-- The per-row body of `enrich_weapons` after the fuzzy lookups (the lore
text, the scaling dict and the base-damage dict resolved via `fuzzy_get` are
taken as arguments; `requirements` stands for the `safe_literal_eval` result
after the `isinstance(dict)` check, a parse that never raises).  Every field
goes through the safe coercions except `dlc`, which the code builds with a
raw `int(row.get("dlc", 0))`: `.error` models that call raising. -/
def enrichWeaponRow (lore : String) (scaling : Option Scaling) (baseDmg : Option BaseDmg)
    (row : WeaponRow) : Except String EnrichedWeapon :=
  match pyInt (row.dlc_col.getD (.num 0)) with
  | .error e => .error e
  | .ok d =>
    .ok
      { name := safe_str row.name "Unknown Weapon"
        description := safe_str row.description ""
        lore := lore
        category := safe_str row.category "Unknown"
        damage_type := safe_str row.damage_type_col "Standard"
        requirements := row.requirements_dict
        scaling := scaling
        primary_scaling := primary_scaling scaling
        base_damage := baseDmg
        passive_effect := safe_str row.passive_effect_col "None"
        skill := safe_str row.skill_col "None"
        fp_cost := safe_str row.fp_cost_col "0"
        weight := (safe_float row.weight_col (some 0)).getD 0
        dlc := d }

/-- Python `str.rstrip(":")`: drop trailing colon characters. -/
def rstripColon (cs : List Char) : List Char :=
  (cs.reverse.dropWhile (fun c => c == ':')).reverse

/-- Test of the anchored pattern of one-or-more digits or commas: a pure
rune amount such as "120,000". -/
def isRuneAmount (cs : List Char) : Bool :=
  !cs.isEmpty && cs.all (fun c => c.isDigit || c == ',')

/-- One row of `bosses.csv` as `enrich_bosses` reads it.  `locDrops` stands
for the `safe_literal_eval` result of the "Locations & Drops" column (a
parse that never raises): the location entries in dict order when it was a
dict (`none` otherwise), each paired with its reward list when that value
was a list. -/
structure BossRow where
  name : Option String
  blockquote : Option String
  hp : Option String
  locDrops : Option (List (String × Option (List String)))
  dlc_col : Option Cell
deriving Repr

/-- The locations list: each dict key with trailing colons and whitespace
stripped, in order. -/
def bossLocations (ld : Option (List (String × Option (List String)))) : List String :=
  match ld with
  | none => []
  | some entries => entries.map (fun e => (pyStrip (rstripColon e.1.data)).asString)

/-- The drops list: every stripped reward item that is not a pure rune
amount, in order. -/
def bossDrops (ld : Option (List (String × Option (List String)))) : List String :=
  match ld with
  | none => []
  | some entries =>
    (entries.map (fun e =>
      match e.2 with
      | none => []
      | some items =>
        (items.map (fun it => (pyStrip it.data).asString)).filter
          (fun it2 => !isRuneAmount it2.data))).flatten

/-- The boss dict `enrich_bosses` appends for one row.  The vulnerability
fields are spread into it; they are kept here as the `vuln` key list. -/
structure EnrichedBoss where
  name : String
  description : String
  lore : String
  hp : String
  locations : List String
  drops : List String
  dlc : Int
  vuln : List (String × JVal)
deriving Repr

/-- The per-row body of `enrich_bosses` after the fuzzy lookups (the resolved
lore text and stat record are arguments): name, blockquote and hp through
`safe_str`, description falling back to the lore text when the blockquote is
empty, locations and drops from the nested structure, the vulnerability
fields from the branch on the resolved stats, and — exactly as in the weapon
enricher — a bare `int(row.get("dlc", 0))` modelled by `Except`. -/
def enrichBossRow (loreText : String) (stats : Option BossStats) (idx : WeaponIndex)
    (row : BossRow) : Except String EnrichedBoss :=
  match pyInt (row.dlc_col.getD (.num 0)) with
  | .error e => .error e
  | .ok d =>
    let blockquote := safe_str row.blockquote ""
    .ok
      { name := safe_str row.name "Unknown Boss"
        description := if blockquote != "" then blockquote else loreText
        lore := loreText
        hp := safe_str row.hp "Unknown"
        locations := bossLocations row.locDrops
        drops := bossDrops row.locDrops
        dlc := d
        vuln := bossVulnFields stats idx }

/-- The name line shared verbatim by `enrich_magic`, `enrich_npcs`,
`enrich_locations`, `enrich_armors`, `enrich_creatures`,
`enrich_ashes_of_war` and `enrich_skills`:
`safe_str(row.get("name"), "Unknown")`. -/
def otherEnricherName (rawName : Option String) : String := safe_str rawName "Unknown"

/-! ## Concrete inputs used by the claims -/

/-- Boss record of the end-to-end example: physical negations
Standard 40 / Slash 60 / Strike 60 / Pierce 60 and one vulnerable status,
Scarlet Rot at "60/80". -/
def exBoss1 : BossStats :=
  { emptyStats with
    neg_standard := .num 40
    neg_slash := .num 60
    neg_strike := .num 60
    neg_pierce := .num 60
    res_scarlet_rot := some "60/80" }

/-- The weapon of the end-to-end example: damage type "Standard", passive effect
"Builds scarlet rot". -/
def exWeapon1 : Weapon :=
  { name := "Rotvenom Blade"
    category := "Katana"
    damage_type := "Standard"
    passive_effect := "Builds scarlet rot"
    primary_scaling := "Arc"
    scaling := some ⟨"-", "-", "-", "-", "B"⟩ }

def exIdx1 : WeaponIndex := build_weapon_index [exWeapon1]

/-- Status ranking example: Poison "100/200", Frostbite "Immune",
Hemorrhage "40/80". -/
def exBoss3 : BossStats :=
  { emptyStats with
    res_poison := some "100/200"
    res_frostbite := some "Immune"
    res_hemorrhage := some "40/80" }

/-- Tie at the minimum negation value: Standard and Slash both at 40. -/
def exBoss2 : BossStats :=
  { emptyStats with
    neg_standard := .num 40
    neg_slash := .num 40
    neg_strike := .num 60
    neg_pierce := .num 60 }

/-- All four negations equal (weakest-physical tie-break witness). -/
def exBossTie : BossStats :=
  { emptyStats with
    neg_standard := .num 50
    neg_slash := .num 50
    neg_strike := .num 50
    neg_pierce := .num 50 }

/-! ## Theorems -/

/-- C1: for the boss record with negations Standard 40 / Slash 60 / Strike 60
/ Pierce 60 and the single vulnerable status Scarlet Rot at "60/80", and an
index holding one weapon of damage type "Standard" with passive effect
"Builds scarlet rot", the engine scores that weapon 10 (top status tier)
+ 3 (physical bonus, 40 < avg(60,60,60) = 60) = 13 and puts it in the first
position of the scored candidate list. -/
theorem claim1_end_to_end :
    weakest_physical exBoss1 = "Standard" ∧
    statusVulns exBoss1 = ["Scarlet Rot"] ∧
    scoredCandidates (weakest_physical exBoss1) (statusVulns exBoss1) exIdx1
        (statusDetails exBoss1) (validPhys exBoss1) =
      [⟨exWeapon1, 13,
        "Exploits Standard weakness; Applies Scarlet Rot (boss resistance: 60/80)"⟩] := by
  with_unfolding_all decide

/-! ### C2: the physical-match bonus rule -/

/-- Following the words of the specification, for comparison with the code: the
average negation over the *other physical types* besides the weakest (an
empty average is `0 / 0 = 0` in ℚ). -/
def specAvgOthers (physNeg : List (String × ℚ)) (weakest : String) : ℚ :=
  let others := (physNeg.filter (fun kv => kv.1 != weakest)).map (fun kv => kv.2)
  others.sum / (others.length : ℚ)

/-- C2 counterexample: with negations Standard 40, Slash 40, Strike 60,
Pierce 60 the weakest type is Standard and its negation 40 is strictly below
the average of the other three types (140/3... namely (40+60+60)/3), so the
claim prescribes a physical contribution of 3 for a weapon of damage type
"Standard"; the code awards only 1, because its average excludes every value
*equal to the weakest value* (the tied Slash at 40) from the numerator while
still dividing by `len(vals) - 1`. -/
theorem claim2_counterexample :
    weakest_physical exBoss2 = "Standard" ∧
    (40 : ℚ) < specAvgOthers (validPhys exBoss2) "Standard" ∧
    physPart (validPhys exBoss2) "Standard" exWeapon1 = 1 ∧ (1 : Nat) ≠ 3 := by
  with_unfolding_all decide

lemma lookup?_val_mem {m : List (String × α)} {k : String} {v : α}
    (h : lookup? m k = some v) : v ∈ m.map (fun kv => kv.2) := by
  induction m with
  | nil => simp [lookup?] at h
  | cons a l ih =>
    by_cases hk : a.1 == k
    · simp [lookup?, hk] at h
      simp [← h]
    · simp [lookup?, hk] at h
      simp [ih h]

lemma lookup?_ne_nil {m : List (String × α)} {k : String} {v : α}
    (h : lookup? m k = some v) : m ≠ [] := by
  cases m <;> simp [lookup?] at h ⊢

lemma filter_bne_length_of_count_one :
    ∀ (l : List ℚ) (v : ℚ), l.count v = 1 →
      (l.filter (fun x => x != v)).length = l.length - 1 := by
  intro l v h
  induction l with
  | nil => simp at h
  | cons a l ih =>
    by_cases hav : a = v
    · subst hav
      have hz : l.count a = 0 := by
        have : (a :: l).count a = l.count a + 1 := List.count_cons_self a l
        omega
      have hfl : l.filter (fun x => x != a) = l := by
        apply List.filter_eq_self.mpr
        intro x hx
        have : x ≠ a := by
          intro hxa
          subst hxa
          exact absurd ((List.count_pos_iff).mpr hx) (by omega)
        simp [this]
      simp [List.filter_cons, hfl]
    · have hc : l.count v = 1 := by
        have : (a :: l).count v = l.count v := List.count_cons_of_ne (by exact fun hh => hav hh.symm) l
        omega
      have hlen : 1 ≤ l.length := by
        have : v ∈ l := (List.count_pos_iff).mp (by omega)
        exact List.length_pos.mpr (by rintro rfl; simp at this)
      have := ih hc
      simp only [List.filter_cons]
      have hne : (a != v) = true := by simp [hav]
      rw [hne]
      simp only [if_true, List.length_cons]
      omega

/-- When the weakest value occurs exactly once among the negation values and
the keys are distinct, dropping the values equal to the weakest value is the
same as dropping the entry of the weakest type. -/
lemma filter_values_eq :
    ∀ (pn : List (String × ℚ)) (wk : String) (wv : ℚ),
      (pn.map (fun kv => kv.1)).Nodup →
      lookup? pn wk = some wv →
      (pn.map (fun kv => kv.2)).count wv = 1 →
      (pn.map (fun kv => kv.2)).filter (fun x => x != wv) =
        (pn.filter (fun kv => kv.1 != wk)).map (fun kv => kv.2) := by
  intro pn wk wv hnd hlk hct
  induction pn with
  | nil => simp [lookup?] at hlk
  | cons a l ih =>
    rcases a with ⟨k, v⟩
    simp only [List.map_cons, List.nodup_cons] at hnd
    by_cases hk : k = wk
    · subst hk
      have hv : v = wv := by
        simp [lookup?] at hlk
        exact hlk
      subst hv
      have hz : (l.map (fun kv => kv.2)).count v = 0 := by
        have : (v :: l.map (fun kv => kv.2)).count v = (l.map (fun kv => kv.2)).count v + 1 :=
          List.count_cons_self _ _
        simp only [List.map_cons] at hct
        omega
      have hfl : (l.map (fun kv => kv.2)).filter (fun x => x != v) = l.map (fun kv => kv.2) := by
        apply List.filter_eq_self.mpr
        intro x hx
        have : x ≠ v := by
          intro hxv
          subst hxv
          exact absurd ((List.count_pos_iff).mpr hx) (by omega)
        simp [this]
      have hkeys : l.filter (fun kv => kv.1 != k) = l := by
        apply List.filter_eq_self.mpr
        intro kv hkv
        have : kv.1 ≠ k := fun heq => hnd.1 (heq ▸ List.mem_map_of_mem (fun kv => kv.1) hkv)
        simp [this]
      simp [List.filter_cons, hfl, hkeys]
    · have hkb : (k == wk) = false := by simp [hk]
      have hlk' : lookup? l wk = some wv := by
        simpa [lookup?, hkb] using hlk
      have hmem : wv ∈ l.map (fun kv => kv.2) := lookup?_val_mem hlk'
      have hvne : v ≠ wv := by
        intro he
        subst he
        have h1 : (l.map (fun kv => kv.2)).count v ≥ 1 := (List.count_pos_iff).mpr hmem
        have h2 : (v :: l.map (fun kv => kv.2)).count v = (l.map (fun kv => kv.2)).count v + 1 :=
          List.count_cons_self _ _
        simp only [List.map_cons] at hct
        omega
      have hct' : (l.map (fun kv => kv.2)).count wv = 1 := by
        have : (v :: l.map (fun kv => kv.2)).count wv = (l.map (fun kv => kv.2)).count wv := by
          exact List.count_cons_of_ne (fun hh => hvne hh.symm) _
        simp only [List.map_cons] at hct
        omega
      have hrec := ih hnd.2 hlk' hct'
      have hvb : (v != wv) = true := by simp [hvne]
      have hkb2 : (k != wk) = true := by simp [hk]
      simp only [List.map_cons, List.filter_cons, hvb, hkb2, if_true, List.map_cons]
      rw [hrec]

lemma validPhys_keys_nodup (s : BossStats) :
    ((validPhys s).map (fun kv => kv.1)).Nodup := by
  unfold validPhys physNegPairs
  rcases h1 : safe_float s.neg_standard none with _ | q1 <;>
    rcases h2 : safe_float s.neg_slash none with _ | q2 <;>
      rcases h3 : safe_float s.neg_strike none with _ | q3 <;>
        rcases h4 : safe_float s.neg_pierce none with _ | q4 <;>
          simp [List.filterMap]

/-- C2 (amended): the physical contribution is nonzero only when the weapon
has slash-split capitalized damage types containing the weakest type, in which
case it equals the boss-level bonus; that bonus is 3 exactly when the weakest
value is strictly below the average used by the code — the values *different from the
weakest value* divided by `max(count - 1, 1)` — and this average agrees with
the spec average-of-the-other-types whenever no other type ties the
weakest value. -/
theorem claim2_physical_bonus (s : BossStats) (w : Weapon)
    (hk : weakest_physical s ≠ "Unknown") :
    (physPart (validPhys s) (weakest_physical s) w ≠ 0 →
      (dmgTokens w.damage_type).contains (weakest_physical s) = true) ∧
    ((dmgTokens w.damage_type).contains (weakest_physical s) = true →
      physPart (validPhys s) (weakest_physical s) w =
        physBonus (validPhys s) (weakest_physical s)) ∧
    (∀ wv, lookup? (validPhys s) (weakest_physical s) = some wv →
      (physBonus (validPhys s) (weakest_physical s) = 3 ↔
        wv < codeAvgOthers ((validPhys s).map (fun kv => kv.2)) wv)) ∧
    (∀ wv, lookup? (validPhys s) (weakest_physical s) = some wv →
      ((validPhys s).map (fun kv => kv.2)).count wv = 1 →
      codeAvgOthers ((validPhys s).map (fun kv => kv.2)) wv =
        specAvgOthers (validPhys s) (weakest_physical s)) := by
  refine ⟨?_, ?_, ?_, ?_⟩
  · intro h
    cases hcc : (dmgTokens w.damage_type).contains (weakest_physical s) with
    | true => rfl
    | false =>
      have hnm : weakest_physical s ∉ dmgTokens w.damage_type := by simpa using hcc
      simp [physPart, hcc] at h
      exact absurd h.1 hnm
  · intro h
    unfold physPart
    rw [if_pos h]
  · intro wv hlk
    have hne : validPhys s ≠ [] := lookup?_ne_nil hlk
    have hkb : (weakest_physical s == "Unknown") = false := by
      simp [hk]
    have hie : (validPhys s).isEmpty = false := by
      cases h : validPhys s
      · exact absurd h hne
      · simp [h]
    have hve : ((validPhys s).map (fun kv => kv.2)).isEmpty = false := by
      cases h : validPhys s
      · exact absurd h hne
      · simp [h]
    simp only [physBonus, hie, hkb, Bool.or_self, Bool.false_eq_true, if_false, hlk, hve]
    split
    · rename_i hlt
      simp [hlt]
    · rename_i hlt
      simp [hlt]
  · intro wv hlk hct
    have hbr := filter_values_eq (validPhys s) (weakest_physical s) wv
      (validPhys_keys_nodup s) hlk hct
    have hlen := filter_bne_length_of_count_one ((validPhys s).map (fun kv => kv.2)) wv hct
    have hmem : wv ∈ (validPhys s).map (fun kv => kv.2) := lookup?_val_mem hlk
    have hpos : 1 ≤ ((validPhys s).map (fun kv => kv.2)).length :=
      List.length_pos.mpr (by rintro h; rw [h] at hmem; simp at hmem)
    unfold codeAvgOthers specAvgOthers
    rw [hbr]
    by_cases hone : ((validPhys s).map (fun kv => kv.2)).length = 1
    · have h0 : ((validPhys s).filter (fun kv => kv.1 != weakest_physical s)).length = 0 := by
        rw [← List.length_map _ (fun kv => kv.2), ← hbr]
        omega
      have h0' : (validPhys s).filter (fun kv => kv.1 != weakest_physical s) = [] :=
        List.length_eq_zero.mp h0
      simp [h0', hone]
    · have h2 : 2 ≤ ((validPhys s).map (fun kv => kv.2)).length := by omega
      have : max (((validPhys s).map (fun kv => kv.2)).length - 1) 1 =
          (((validPhys s).filter (fun kv => kv.1 != weakest_physical s)).map
            (fun kv => kv.2)).length := by
        rw [← hbr, hlen]
        omega
      rw [this]

/-- C2 witness: the amended rule applied at the end-to-end example boss. -/
theorem claim2_witness :
    (physPart (validPhys exBoss1) (weakest_physical exBoss1) exWeapon1 ≠ 0 →
      (dmgTokens exWeapon1.damage_type).contains (weakest_physical exBoss1) = true) ∧
    ((dmgTokens exWeapon1.damage_type).contains (weakest_physical exBoss1) = true →
      physPart (validPhys exBoss1) (weakest_physical exBoss1) exWeapon1 =
        physBonus (validPhys exBoss1) (weakest_physical exBoss1)) ∧
    (∀ wv, lookup? (validPhys exBoss1) (weakest_physical exBoss1) = some wv →
      (physBonus (validPhys exBoss1) (weakest_physical exBoss1) = 3 ↔
        wv < codeAvgOthers ((validPhys exBoss1).map (fun kv => kv.2)) wv)) ∧
    (∀ wv, lookup? (validPhys exBoss1) (weakest_physical exBoss1) = some wv →
      ((validPhys exBoss1).map (fun kv => kv.2)).count wv = 1 →
      codeAvgOthers ((validPhys exBoss1).map (fun kv => kv.2)) wv =
        specAvgOthers (validPhys exBoss1) (weakest_physical exBoss1)) :=
  claim2_physical_bonus exBoss1 exWeapon1 (by with_unfolding_all decide)

/-! ### C3: status vulnerability ranking -/

/-- Following the claim's words, for comparison with the code: the first
numeric token under *comma*-delimited tiers (immune / unparseable again
infinite). -/
def firstTokenCommaTiers (s : String) : Option ℚ :=
  if pyLower (pyStrip s.data) == "immune".data then none
  else
    match pySplit ',' s.data with
    | [] => none
    | p :: _ => pyFloat (pyStrip p)

/-- A boss whose only status resistance value is the string "1,2". -/
def exBossComma : BossStats := { emptyStats with res_poison := some "1,2" }

/-- C3 counterexample: the tiers are slash-delimited, not comma-delimited as
the claim states.  On the resistance value "1,2" the code strips the comma as
a thousands separator inside the single slash-token and ranks Poison at 12,
while the claim's comma-delimited reading would take the first token 1. -/
theorem claim3_counterexample :
    rank_status_vulnerabilities (statusVulns exBossComma) (statusDetails exBossComma) =
      [("Poison", some 12)] ∧
    firstTokenCommaTiers "1,2" = some 1 ∧
    (some (12 : ℚ) : Option ℚ) ≠ some 1 := by
  with_unfolding_all decide

lemma resLE_of_resLT {a b : Option ℚ} (h : resLT a b = true) : resLE a b = true := by
  cases a <;> cases b <;> simp [resLT, resLE] at h ⊢
  exact le_of_lt h

lemma resLE_of_not_resLT {a b : Option ℚ} (h : resLT b a = false) : resLE a b = true := by
  cases a <;> cases b <;> simp [resLT, resLE] at h ⊢
  exact h

lemma resLE_trans {a b c : Option ℚ} (h1 : resLE a b = true) (h2 : resLE b c = true) :
    resLE a c = true := by
  cases a <;> cases b <;> cases c <;> simp [resLE] at h1 h2 ⊢
  exact le_trans h1 h2

lemma mem_insertAsc {z x : String × Option ℚ} :
    ∀ {l : List (String × Option ℚ)}, z ∈ insertAsc x l ↔ z = x ∨ z ∈ l := by
  intro l
  induction l with
  | nil => simp [insertAsc]
  | cons y ys ih =>
    simp only [insertAsc]
    split
    · rw [List.mem_cons, ih, List.mem_cons]
      tauto
    · rw [List.mem_cons]

lemma insertAsc_sorted (x : String × Option ℚ) :
    ∀ (l : List (String × Option ℚ)),
      l.Pairwise (fun a b => resLE a.2 b.2 = true) →
      (insertAsc x l).Pairwise (fun a b => resLE a.2 b.2 = true) := by
  intro l
  induction l with
  | nil =>
    intro _
    simp [insertAsc]
  | cons y ys ih =>
    intro hl
    rw [List.pairwise_cons] at hl
    simp only [insertAsc]
    split
    · rename_i hlt
      rw [List.pairwise_cons]
      refine ⟨?_, ih hl.2⟩
      intro z hz
      rcases mem_insertAsc.mp hz with rfl | hz'
      · exact resLE_of_resLT hlt
      · exact hl.1 z hz'
    · rename_i hnlt
      rw [List.pairwise_cons]
      refine ⟨?_, List.Pairwise.cons hl.1 hl.2⟩
      intro z hz
      have hxy : resLE x.2 y.2 = true :=
        resLE_of_not_resLT (by simpa using hnlt)
      rcases List.mem_cons.mp hz with rfl | hz'
      · exact hxy
      · exact resLE_trans hxy (hl.1 z hz')

lemma insertAsc_perm (x : String × Option ℚ) :
    ∀ (l : List (String × Option ℚ)), (insertAsc x l).Perm (x :: l) := by
  intro l
  induction l with
  | nil => simp [insertAsc]
  | cons y ys ih =>
    simp only [insertAsc]
    split
    · exact ((ih.cons y).trans (List.Perm.swap x y ys))
    · exact List.Perm.refl _

lemma sortAsc_sorted :
    ∀ (l : List (String × Option ℚ)),
      (sortAsc l).Pairwise (fun a b => resLE a.2 b.2 = true) := by
  intro l
  induction l with
  | nil => simp [sortAsc]
  | cons x xs ih => exact insertAsc_sorted x (sortAsc xs) ih

lemma sortAsc_perm : ∀ (l : List (String × Option ℚ)), (sortAsc l).Perm l := by
  intro l
  induction l with
  | nil => simp [sortAsc]
  | cons x xs ih => exact (insertAsc_perm x (sortAsc xs)).trans (ih.cons x)

/-- C3 (amended): the vulnerable statuses of the profile are exactly the statuses
among Hemorrhage / Frostbite / Poison / Scarlet Rot whose resistance field is
present and not the immune sentinel; the ranking pairs each with the first
numeric token of its *slash*-delimited resistance value (commas stripped as
thousands separators, immune/unparseable infinite, i.e. `none`, sorted last)
and sorts ascending; on the example record the ranking is
[Hemorrhage 40, Poison 100] with Frostbite excluded. -/
theorem claim3_status_ranking (s : BossStats) :
    (∀ st, st ∈ statusVulns s ↔
      ((st = "Hemorrhage" ∧ isVulnCell s.res_hemorrhage = true) ∨
       (st = "Frostbite" ∧ isVulnCell s.res_frostbite = true) ∨
       (st = "Poison" ∧ isVulnCell s.res_poison = true) ∨
       (st = "Scarlet Rot" ∧ isVulnCell s.res_scarlet_rot = true))) ∧
    (rank_status_vulnerabilities (statusVulns s) (statusDetails s)).Pairwise
      (fun a b => resLE a.2 b.2 = true) ∧
    (rank_status_vulnerabilities (statusVulns s) (statusDetails s)).Perm
      ((statusVulns s).map
        (fun st => (st, parse_first_resistance (lookupD (statusDetails s) st "")))) ∧
    rank_status_vulnerabilities (statusVulns exBoss3) (statusDetails exBoss3) =
      [("Hemorrhage", some 40), ("Poison", some 100)] := by
  refine ⟨?_, sortAsc_sorted _, sortAsc_perm _, by with_unfolding_all decide⟩
  intro st
  rcases hh : isVulnCell s.res_hemorrhage <;>
    rcases hf : isVulnCell s.res_frostbite <;>
      rcases hp : isVulnCell s.res_poison <;>
        rcases hr : isVulnCell s.res_scarlet_rot <;>
          simp [statusVulns, statusPairs, hh, hf, hp, hr]

/-- C3 witness: the amended ranking statement applied at the example boss. -/
theorem claim3_witness :
    ("Hemorrhage" ∈ statusVulns exBoss3 ↔
      (("Hemorrhage" : String) = "Hemorrhage" ∧ isVulnCell exBoss3.res_hemorrhage = true) ∨
      (("Hemorrhage" : String) = "Frostbite" ∧ isVulnCell exBoss3.res_frostbite = true) ∨
      (("Hemorrhage" : String) = "Poison" ∧ isVulnCell exBoss3.res_poison = true) ∨
      (("Hemorrhage" : String) = "Scarlet Rot" ∧ isVulnCell exBoss3.res_scarlet_rot = true)) :=
  (claim3_status_ranking exBoss3).1 "Hemorrhage"

/-! ### C4: weakest physical type -/

/-- Python `min` over an association list keeps the first entry achieving the
minimum value: either the running best survives and bounds everything, or
the result splits the list with strictly larger values before it and no
smaller value after it. -/
lemma pyMin_split :
    ∀ (l : List (String × ℚ)) (best : String × ℚ),
      (pyMinByVal best l = best ∧ ∀ q ∈ l, best.2 ≤ q.2) ∨
      (∃ l1 l2, l = l1 ++ pyMinByVal best l :: l2 ∧
        (pyMinByVal best l).2 < best.2 ∧
        (∀ q ∈ l1, (pyMinByVal best l).2 < q.2) ∧
        (∀ q ∈ l2, (pyMinByVal best l).2 ≤ q.2)) := by
  intro l
  induction l with
  | nil =>
    intro best
    left
    simp [pyMinByVal]
  | cons x xs ih =>
    intro best
    by_cases hx : x.2 < best.2
    · have hr : pyMinByVal best (x :: xs) = pyMinByVal x xs := by
        simp [pyMinByVal, hx]
      rcases ih x with ⟨heq, hall⟩ | ⟨l1, l2, hsplit, hlt, h1, h2⟩
      · right
        refine ⟨[], xs, ?_, ?_, ?_, ?_⟩
        · simp [hr, heq]
        · rw [hr, heq]; exact hx
        · simp
        · intro q hq
          rw [hr, heq]
          exact hall q hq
      · right
        refine ⟨x :: l1, l2, ?_, ?_, ?_, ?_⟩
        · rw [hr, List.cons_append, ← hsplit]
        · rw [hr]
          exact lt_trans (hr ▸ hlt) hx
        · intro q hq
          rcases List.mem_cons.mp hq with rfl | hq'
          · rw [hr]; exact hr ▸ hlt
          · rw [hr]; exact hr ▸ h1 q hq'
        · intro q hq
          rw [hr]
          exact hr ▸ h2 q hq
    · have hr : pyMinByVal best (x :: xs) = pyMinByVal best xs := by
        simp [pyMinByVal, hx]
      have hbx : best.2 ≤ x.2 := le_of_not_lt hx
      rcases ih best with ⟨heq, hall⟩ | ⟨l1, l2, hsplit, hlt, h1, h2⟩
      · left
        refine ⟨hr ▸ heq, ?_⟩
        intro q hq
        rcases List.mem_cons.mp hq with rfl | hq'
        · exact hbx
        · exact hall q hq'
      · right
        refine ⟨x :: l1, l2, ?_, ?_, ?_, ?_⟩
        · rw [hr, List.cons_append, ← hsplit]
        · rw [hr]; exact hr ▸ hlt
        · intro q hq
          rcases List.mem_cons.mp hq with rfl | hq'
          · rw [hr]; exact lt_of_lt_of_le (hr ▸ hlt) hbx
          · rw [hr]; exact hr ▸ h1 q hq'
        · intro q hq
          rw [hr]
          exact hr ▸ h2 q hq

lemma validPhys_key_mem (s : BossStats) :
    ∀ kv ∈ validPhys s, kv.1 ∈ ["Standard", "Slash", "Strike", "Pierce"] := by
  intro kv hkv
  unfold validPhys at hkv
  rcases List.mem_filterMap.mp hkv with ⟨a, ha, hfa⟩
  rcases ho : a.2 with _ | v
  · rw [ho] at hfa
    simp at hfa
  · rw [ho] at hfa
    have hfa' : some (a.1, v) = some kv := hfa
    have hk : (a.1, v) = kv := Option.some.inj hfa'
    rw [← hk]
    have : a.1 ∈ (physNegPairs s).map (fun kv => kv.1) := List.mem_map_of_mem _ ha
    simpa [physNegPairs] using this

/-- C4: the weakest physical type is "Unknown" exactly when no negation
value parses; otherwise it is the first type, in the fixed order Standard,
Slash, Strike, Pierce, achieving the minimum negation value: `validPhys s`
splits around the chosen entry with strictly larger values before it and no
smaller value after it. -/
theorem claim4_weakest_physical (s : BossStats) :
    (physNegPairs s).map (fun kv => kv.1) = ["Standard", "Slash", "Strike", "Pierce"] ∧
    (weakest_physical s = "Unknown" ↔ validPhys s = []) ∧
    (∀ hd tl, validPhys s = hd :: tl →
      ∃ wv l1 l2, validPhys s = l1 ++ (weakest_physical s, wv) :: l2 ∧
        (∀ q ∈ l1, wv < q.2) ∧ (∀ q ∈ l2, wv ≤ q.2)) := by
  refine ⟨rfl, ?_, ?_⟩
  · constructor
    · intro h
      cases hv : validPhys s with
      | nil => rfl
      | cons hd tl =>
        exfalso
        have hw : weakest_physical s = (pyMinByVal hd tl).1 := by
          simp [weakest_physical, hv]
        have hmem : pyMinByVal hd tl ∈ hd :: tl := by
          rcases pyMin_split tl hd with ⟨heq, _⟩ | ⟨l1, l2, hsplit, _, _, _⟩
          · rw [heq]; exact List.mem_cons_self hd tl
          · have hin : pyMinByVal hd tl ∈ l1 ++ pyMinByVal hd tl :: l2 := by simp
            rw [← hsplit] at hin
            exact List.mem_cons_of_mem hd hin
        have := validPhys_key_mem s (pyMinByVal hd tl) (hv ▸ hmem)
        rw [← hw, h] at this
        simp at this
    · intro h
      simp [weakest_physical, h]
  · intro hd tl hv
    have hw : weakest_physical s = (pyMinByVal hd tl).1 := by
      simp [weakest_physical, hv]
    rcases pyMin_split tl hd with ⟨heq, hall⟩ | ⟨l1, l2, hsplit, hlt, h1, h2⟩
    · refine ⟨hd.2, [], tl, ?_, ?_, ?_⟩
      · rw [hv, hw, heq]
        simp
      · simp
      · exact hall
    · refine ⟨(pyMinByVal hd tl).2, hd :: l1, l2, ?_, ?_, ?_⟩
      · rw [hv, hw, List.cons_append, ← hsplit]
      · intro q hq
        rcases List.mem_cons.mp hq with rfl | hq'
        · exact hlt
        · exact h1 q hq'
      · exact h2

/-- C4 witness: all four negation values tied at 50 still pick Standard. -/
theorem claim4_witness :
    ∃ wv l1 l2, validPhys exBossTie = l1 ++ (weakest_physical exBossTie, wv) :: l2 ∧
      (∀ q ∈ l1, wv < q.2) ∧ (∀ q ∈ l2, wv ≤ q.2) :=
  (claim4_weakest_physical exBossTie).2.2 ("Standard", 50)
    [("Slash", 50), ("Strike", 50), ("Pierce", 50)] (by with_unfolding_all decide)

/-! ### C10: primary-scaling argmax tie-break -/

/-- Python `max` keeps the first entry achieving the maximum. -/
lemma pyMax_split (f : α → Nat) :
    ∀ (l : List α) (best : α),
      (pyMaxBy f best l = best ∧ ∀ q ∈ l, f q ≤ f best) ∨
      (∃ l1 l2, l = l1 ++ pyMaxBy f best l :: l2 ∧
        f best < f (pyMaxBy f best l) ∧
        (∀ q ∈ l1, f q < f (pyMaxBy f best l)) ∧
        (∀ q ∈ l2, f q ≤ f (pyMaxBy f best l))) := by
  intro l
  induction l with
  | nil =>
    intro best
    left
    simp [pyMaxBy]
  | cons x xs ih =>
    intro best
    by_cases hx : f x > f best
    · have hr : pyMaxBy f best (x :: xs) = pyMaxBy f x xs := by
        simp [pyMaxBy, hx]
      rcases ih x with ⟨heq, hall⟩ | ⟨l1, l2, hsplit, hlt, h1, h2⟩
      · right
        refine ⟨[], xs, ?_, ?_, ?_, ?_⟩
        · simp [hr, heq]
        · rw [hr, heq]; exact hx
        · simp
        · intro q hq
          rw [hr, heq]
          exact hall q hq
      · right
        refine ⟨x :: l1, l2, ?_, ?_, ?_, ?_⟩
        · rw [hr, List.cons_append, ← hsplit]
        · rw [hr]; exact lt_trans hx (hr ▸ hlt)
        · intro q hq
          rcases List.mem_cons.mp hq with rfl | hq'
          · rw [hr]; exact hr ▸ hlt
          · rw [hr]; exact hr ▸ h1 q hq'
        · intro q hq
          rw [hr]
          exact hr ▸ h2 q hq
    · have hr : pyMaxBy f best (x :: xs) = pyMaxBy f best xs := by
        simp [pyMaxBy, hx]
      have hbx : f x ≤ f best := le_of_not_lt hx
      rcases ih best with ⟨heq, hall⟩ | ⟨l1, l2, hsplit, hlt, h1, h2⟩
      · left
        refine ⟨hr ▸ heq, ?_⟩
        intro q hq
        rcases List.mem_cons.mp hq with rfl | hq'
        · exact hbx
        · exact hall q hq'
      · right
        refine ⟨x :: l1, l2, ?_, ?_, ?_, ?_⟩
        · rw [hr, List.cons_append, ← hsplit]
        · rw [hr]; exact hr ▸ hlt
        · intro q hq
          rcases List.mem_cons.mp hq with rfl | hq'
          · rw [hr]; exact lt_of_le_of_lt hbx (hr ▸ hlt)
          · rw [hr]; exact hr ▸ h1 q hq'
        · intro q hq
          rw [hr]
          exact hr ▸ h2 q hq

/-- Two "first position achieving the maximum" decompositions of one list
coincide. -/
lemma firstMax_unique (f : α → Nat) :
    ∀ (L1 : List α) (M1 : List α) (L2 M2 : List α) (x y : α),
      L1 ++ x :: L2 = M1 ++ y :: M2 →
      (∀ q ∈ L1, f q < f x) → (∀ q ∈ L2, f q ≤ f x) →
      (∀ q ∈ M1, f q < f y) → (∀ q ∈ M2, f q ≤ f y) →
      x = y := by
  intro L1
  induction L1 with
  | nil =>
    intro M1 L2 M2 x y heq _ hL2 hM1 _
    cases M1 with
    | nil =>
      simp at heq
      exact heq.1
    | cons m M1' =>
      exfalso
      simp only [List.nil_append, List.cons_append, List.cons.injEq] at heq
      rcases heq with ⟨hxm, heq2⟩
      have hy : y ∈ L2 := by
        rw [heq2]
        simp
      have h1 : f y ≤ f x := hL2 y hy
      have h2 : f x < f y := by
        have := hM1 m (List.mem_cons_self _ _)
        rw [hxm]
        exact this
      omega
  | cons a L1' ih =>
    intro M1 L2 M2 x y heq hL1 hL2 hM1 hM2
    cases M1 with
    | nil =>
      exfalso
      simp only [List.nil_append, List.cons_append, List.cons.injEq] at heq
      rcases heq with ⟨hay, heq2⟩
      have hx : x ∈ M2 := by
        rw [← heq2]
        simp
      have h1 : f x ≤ f y := hM2 x hx
      have h2 : f y < f x := by
        have := hL1 a (List.mem_cons_self _ _)
        rw [← hay]
        exact this
      omega
    | cons b M1' =>
      simp only [List.cons_append, List.cons.injEq] at heq
      exact ih M1' L2 M2 x y heq.2
        (fun q hq => hL1 q (List.mem_cons_of_mem a hq)) hL2
        (fun q hq => hM1 q (List.mem_cons_of_mem b hq)) hM2

lemma scalingItems_key_mem (sc : Scaling) :
    ∀ p ∈ scalingItems sc, p.1 = "Str" ∨ p.1 = "Dex" ∨ p.1 = "Int" ∨
      p.1 = "Fai" ∨ p.1 = "Arc" := by
  intro p hp
  simp only [scalingItems, List.mem_cons, List.mem_singleton] at hp
  rcases hp with rfl | rfl | rfl | rfl | rfl | h
  · left; rfl
  · right; left; rfl
  · right; right; left; rfl
  · right; right; right; left; rfl
  · right; right; right; right; rfl
  · simp at h

/-- The running Python `max` is an upper bound and sits at the first position
achieving it. -/
lemma argmaxFirst (f : α → Nat) (it : α) (rest : List α) :
    (∀ q ∈ it :: rest, f q ≤ f (pyMaxBy f it rest)) ∧
    ∃ L1 L2, it :: rest = L1 ++ pyMaxBy f it rest :: L2 ∧
      (∀ q ∈ L1, f q < f (pyMaxBy f it rest)) ∧
      (∀ q ∈ L2, f q ≤ f (pyMaxBy f it rest)) := by
  rcases pyMax_split f rest it with ⟨heq, hall⟩ | ⟨l1, l2, hsplit, hlt, h1, h2⟩
  · refine ⟨?_, [], rest, by rw [heq]; simp, by simp, by rw [heq]; exact hall⟩
    intro q hq
    rcases List.mem_cons.mp hq with rfl | hq'
    · rw [heq]
    · rw [heq]; exact hall q hq'
  · refine ⟨?_, it :: l1, l2, by rw [List.cons_append, ← hsplit], ?_, h2⟩
    · intro q hq
      rcases List.mem_cons.mp hq with rfl | hq'
      · exact le_of_lt hlt
      · rw [hsplit] at hq'
        rcases List.mem_append.mp hq' with hq'' | hq''
        · exact le_of_lt (h1 q hq'')
        · rcases List.mem_cons.mp hq'' with rfl | hq3
          · exact le_refl _
          · exact h2 q hq3
    · intro q hq
      rcases List.mem_cons.mp hq with rfl | hq'
      · exact hlt
      · exact h1 q hq'

/-- C10: primary scaling is "None" exactly when no scaling table resolved or
every grade maps to 0; and whenever a stat is the *first* entry of the
scaling table (order Str, Dex, Int, Fai, Arc) achieving the maximal positive
grade value, that stat is chosen. -/
theorem claim10_primary_scaling (sc : Scaling) :
    primary_scaling none = "None" ∧
    (primary_scaling (some sc) = "None" ↔
      ∀ p ∈ scalingItems sc, grade_order p.2 = 0) ∧
    (∀ st g l1 l2,
      scalingItems sc = l1 ++ (st, g) :: l2 →
      0 < grade_order g →
      (∀ q ∈ l1, grade_order q.2 < grade_order g) →
      (∀ q ∈ l2, grade_order q.2 ≤ grade_order g) →
      primary_scaling (some sc) = st) := by
  obtain ⟨hub, L1, L2, hs, hL1, hL2⟩ :=
    argmaxFirst (fun kv : String × String => grade_order kv.2) ("Str", sc.sStr)
      [("Dex", sc.sDex), ("Int", sc.sInt), ("Fai", sc.sFai), ("Arc", sc.sArc)]
  set M := pyMaxBy (fun kv : String × String => grade_order kv.2) ("Str", sc.sStr)
    [("Dex", sc.sDex), ("Int", sc.sInt), ("Fai", sc.sFai), ("Arc", sc.sArc)] with hM
  have hps : primary_scaling (some sc) = if grade_order M.2 > 0 then M.1 else "None" := rfl
  have hMitems : M ∈ scalingItems sc := by
    have : M ∈ ("Str", sc.sStr) :: [("Dex", sc.sDex), ("Int", sc.sInt),
        ("Fai", sc.sFai), ("Arc", sc.sArc)] := by
      rw [hs]
      simp
    exact this
  refine ⟨rfl, ?_, ?_⟩
  · constructor
    · intro h p hp
      by_cases hpos : grade_order M.2 > 0
      · exfalso
        rw [hps, if_pos hpos] at h
        have := scalingItems_key_mem sc M hMitems
        rw [h] at this
        simp at this
      · have hp' : p ∈ ("Str", sc.sStr) :: [("Dex", sc.sDex), ("Int", sc.sInt),
            ("Fai", sc.sFai), ("Arc", sc.sArc)] := hp
        have hb := hub p hp'
        simp only at hb
        omega
    · intro h
      have hz := h M hMitems
      rw [hps, if_neg (by omega)]
  · intro st g l1 l2 hsp hpos hbefore hafter
    have hlists : l1 ++ (st, g) :: l2 = L1 ++ M :: L2 := hsp.symm.trans hs
    have heq : (st, g) = M :=
      firstMax_unique (fun kv : String × String => grade_order kv.2)
        l1 L1 l2 L2 (st, g) M hlists hbefore hafter hL1 hL2
    rw [hps, ← heq]
    simp only
    rw [if_pos hpos]

/-- C10 witness: Str and Dex tied at grade B select Str. -/
theorem claim10_witness : primary_scaling (some ⟨"B", "B", "-", "-", "-"⟩) = "Str" :=
  (claim10_primary_scaling ⟨"B", "B", "-", "-", "-"⟩).2.2 "Str" "B" []
    [("Dex", "B"), ("Int", "-"), ("Fai", "-"), ("Arc", "-")]
    (by with_unfolding_all decide) (by with_unfolding_all decide)
    (by with_unfolding_all decide) (by with_unfolding_all decide)

/-! ### C6: damage-type index completeness -/

lemma bucketOf_cons (a : String) (ws : List Weapon) (rest : Buckets) (k' : String) :
    bucketOf ((a, ws) :: rest) k' = if a == k' then ws else bucketOf rest k' := by
  by_cases h : a == k' <;> simp [bucketOf, lookupD, lookup?, h]

lemma bucketOf_nil (k' : String) : bucketOf ([] : Buckets) k' = [] := rfl

lemma bucketOf_addToBucket (m : Buckets) (k k' : String) (w w₀ : Weapon) :
    w₀ ∈ bucketOf (addToBucket m k w) k' ↔
      (w₀ ∈ bucketOf m k' ∨ (k' = k ∧ w₀ = w)) := by
  induction m with
  | nil =>
    show w₀ ∈ bucketOf [(k, [w])] k' ↔ _
    rw [bucketOf_cons, bucketOf_nil]
    by_cases h : k = k'
    · rw [if_pos (by simp [h])]
      simp [h.symm]
    · rw [if_neg (by simp [h])]
      simp only [List.not_mem_nil, false_iff, false_or, not_and]
      intro he
      exact absurd he.symm h
  | cons a rest ih =>
    rcases a with ⟨a1, ws⟩
    show w₀ ∈ bucketOf (if a1 == k then (a1, ws ++ [w]) :: rest
      else (a1, ws) :: addToBucket rest k w) k' ↔ _
    by_cases h1 : a1 = k
    · rw [if_pos (by simp [h1])]
      rw [bucketOf_cons, bucketOf_cons]
      by_cases h2 : a1 = k'
      · rw [if_pos (by simp [h2]), if_pos (by simp [h2])]
        have hkk : k' = k := h2 ▸ h1
        simp [hkk, List.mem_append]
      · rw [if_neg (by simp [h2]), if_neg (by simp [h2])]
        have : k' ≠ k := fun he => h2 (h1.trans he.symm)
        simp [this]
    · rw [if_neg (by simp [h1])]
      rw [bucketOf_cons, bucketOf_cons]
      by_cases h2 : a1 = k'
      · rw [if_pos (by simp [h2]), if_pos (by simp [h2])]
        have : k' ≠ k := fun he => h1 (h2.trans he)
        simp [this]
      · rw [if_neg (by simp [h2]), if_neg (by simp [h2])]
        exact ih

lemma mem_bucket_tokensFold (w : Weapon) :
    ∀ (tokens : List String) (m : Buckets) (w₀ : Weapon) (dt : String),
      w₀ ∈ bucketOf
          (tokens.foldl
            (fun m' t => if fourPhysTypes.contains t then addToBucket m' t w else m') m) dt ↔
        (w₀ ∈ bucketOf m dt ∨
          (w₀ = w ∧ dt ∈ tokens ∧ fourPhysTypes.contains dt = true)) := by
  intro tokens
  induction tokens with
  | nil =>
    intro m w₀ dt
    simp
  | cons t ts ih =>
    intro m w₀ dt
    simp only [List.foldl_cons]
    rw [ih]
    by_cases hc : fourPhysTypes.contains t
    · rw [if_pos hc, bucketOf_addToBucket]
      constructor
      · rintro ((hm | ⟨rfl, rfl⟩) | ⟨rfl, hts, hdt⟩)
        · exact Or.inl hm
        · exact Or.inr ⟨rfl, List.mem_cons_self _ _, hc⟩
        · exact Or.inr ⟨rfl, List.mem_cons_of_mem t hts, hdt⟩
      · rintro (hm | ⟨rfl, hmem, hdt⟩)
        · exact Or.inl (Or.inl hm)
        · rcases List.mem_cons.mp hmem with rfl | hts
          · exact Or.inl (Or.inr ⟨rfl, rfl⟩)
          · exact Or.inr ⟨rfl, hts, hdt⟩
    · rw [if_neg hc]
      constructor
      · rintro (hm | ⟨rfl, hts, hdt⟩)
        · exact Or.inl hm
        · exact Or.inr ⟨rfl, List.mem_cons_of_mem t hts, hdt⟩
      · rintro (hm | ⟨rfl, hmem, hdt⟩)
        · exact Or.inl hm
        · rcases List.mem_cons.mp hmem with rfl | hts
          · exact absurd hdt hc
          · exact Or.inr ⟨rfl, hts, hdt⟩

lemma mem_by_damage_type_fold :
    ∀ (ws : List Weapon) (m : Buckets) (w₀ : Weapon) (dt : String),
      w₀ ∈ bucketOf (ws.foldl indexDamageStep m) dt ↔
        (w₀ ∈ bucketOf m dt ∨
          ∃ w ∈ ws, w₀ = w ∧ dt ∈ dmgTokens w.damage_type ∧
            fourPhysTypes.contains dt = true) := by
  intro ws
  induction ws with
  | nil =>
    intro m w₀ dt
    simp
  | cons w ws' ih =>
    intro m w₀ dt
    simp only [List.foldl_cons]
    rw [ih]
    unfold indexDamageStep
    rw [mem_bucket_tokensFold]
    constructor
    · rintro ((hm | ⟨rfl, htok, hdt⟩) | ⟨w', hw', rest⟩)
      · exact Or.inl hm
      · exact Or.inr ⟨_, List.mem_cons_self _ _, rfl, htok, hdt⟩
      · exact Or.inr ⟨w', List.mem_cons_of_mem w hw', rest⟩
    · rintro (hm | ⟨w', hw', rest⟩)
      · exact Or.inl (Or.inl hm)
      · rcases List.mem_cons.mp hw' with rfl | hw''
        · exact Or.inl (Or.inr rest)
        · exact Or.inr ⟨w', hw'', rest⟩

/-- C6: a weapon sits in damage-type bucket `dt` exactly when `dt` is one of
its slash-split capitalized damage-type tokens *and* one of the four physical
types (anything else dropped silently); in particular the tokens of
"Standard/Pierce" are exactly Standard and Pierce, so such a weapon is in
exactly those two buckets. -/
theorem claim6_weapon_index (weapons : List Weapon) (w₀ : Weapon) (dt : String) :
    (w₀ ∈ bucketOf (by_damage_type weapons) dt ↔
      ∃ w ∈ weapons, w₀ = w ∧ dt ∈ dmgTokens w.damage_type ∧
        dt ∈ fourPhysTypes) ∧
    dmgTokens "Standard/Pierce" = ["Standard", "Pierce"] := by
  constructor
  · unfold by_damage_type
    rw [mem_by_damage_type_fold]
    rw [bucketOf_nil]
    simp only [List.not_mem_nil, false_or]
    constructor
    · rintro ⟨w, hw, rfl, htok, hdt⟩
      exact ⟨_, hw, rfl, htok, by simpa using hdt⟩
    · rintro ⟨w, hw, rfl, htok, hdt⟩
      exact ⟨_, hw, rfl, htok, by simpa using hdt⟩
  · with_unfolding_all decide

/-- C6 witness: the example weapon with damage type "Standard" is in the
Standard bucket of its index. -/
theorem claim6_witness :
    exWeapon1 ∈ bucketOf (by_damage_type [exWeapon1]) "Standard" :=
  (claim6_weapon_index [exWeapon1] exWeapon1 "Standard").1.mpr
    ⟨exWeapon1, List.mem_cons_self _ _, rfl, by with_unfolding_all decide,
      by with_unfolding_all decide⟩

/-! ### C7: fuzzy lookup contract -/

lemma bestMatch_below_cutoff (sim : String → ℚ) (cutoff : ℚ) :
    ∀ (keys : List String) (acc : Option String), (∀ k ∈ keys, sim k < cutoff) →
      keys.foldl (bmStep sim cutoff) acc = acc := by
  intro keys
  induction keys with
  | nil =>
    intro acc _
    rfl
  | cons k ks ih =>
    intro acc h
    simp only [List.foldl_cons]
    rw [show bmStep sim cutoff acc k = acc from by
      unfold bmStep
      rw [if_pos (h k (List.mem_cons_self _ _))]]
    exact ih acc (fun k' hk' => h k' (List.mem_cons_of_mem _ hk'))

/-- C7: exact hit on the normalized key returns the mapped value regardless
of the similarity scorer (approximate scoring is never consulted); when every
key scores below the cutoff the lookup returns no match; and every call
returns at most one match (an `Option`, never several). -/
theorem claim7_fuzzy_lookup (d : List (String × α)) (key : String)
    (sim : String → ℚ) (cutoff : ℚ) :
    (∀ v, lookup? d (normStr key) = some v → fuzzy_get d key sim cutoff = some v) ∧
    (lookup? d (normStr key) = none → (∀ p ∈ d, sim p.1 < cutoff) →
      fuzzy_get d key sim cutoff = none) ∧
    (fuzzy_get d key sim cutoff = none ∨ ∃ v, fuzzy_get d key sim cutoff = some v) := by
  refine ⟨?_, ?_, ?_⟩
  · intro v hv
    simp only [fuzzy_get]
    rw [hv]
  · intro hnone hsim
    simp only [fuzzy_get]
    rw [hnone]
    have : bestMatch sim cutoff (d.map (fun kv => kv.1)) = none := by
      unfold bestMatch
      apply bestMatch_below_cutoff
      intro k hk
      rcases List.mem_map.mp hk with ⟨p, hp, rfl⟩
      exact hsim p hp
    rw [this]
  · cases h : fuzzy_get d key sim cutoff with
    | none => exact Or.inl rfl
    | some v => exact Or.inr ⟨v, rfl⟩

/-- C7 witness: an exact normalized hit with a scorer that rejects
everything still returns its mapped value. -/
theorem claim7_witness :
    fuzzy_get [("sword of night", (7 : Nat))] "  Sword   OF Night " (fun _ => 0) (3/4) =
      some 7 :=
  (claim7_fuzzy_lookup [("sword of night", 7)] "  Sword   OF Night " (fun _ => 0) (3/4)).1
    7 (by with_unfolding_all decide)

/-! ### C8: the dlc field makes `enrich_weapons` raise -/

/-- A weapon row whose `dlc` cell is NaN (an empty cell in the CSV). -/
def exBadRow : WeaponRow :=
  ⟨some "Sword", none, none, none, [], none, none, none, .nan, some .nan⟩

/-- C8: `enrich_weapons` builds every field through the safe coercions except
`dlc`, which it computes with a bare `int(row.get("dlc", 0))`; a NaN dlc cell
therefore raises ValueError and the row is never emitted, contradicting the
claim that no field value can make an enricher raise. -/
theorem claim8_dlc_raises :
    enrichWeaponRow "" none none exBadRow =
      .error "cannot convert float NaN to integer" := rfl

/-! ### C9: vulnerability-profile field sets -/

/-- C9 counterexample: the key "physical_negation" is present in the profile
of a boss whose stat record resolved but absent from the fallback profile of
a boss without one, so the two field sets differ; moreover the stance field
holds null (not a documented default) in the fallback, and likewise in the
resolved branch when the stance column is missing. -/
theorem claim9_counterexample :
    "physical_negation" ∈
      (analyzeVuln emptyStats (build_weapon_index [])).map (fun kv => kv.1) ∧
    "physical_negation" ∉
      (bossVulnFields none (build_weapon_index [])).map (fun kv => kv.1) ∧
    ("stance", JVal.null) ∈ bossVulnFields none (build_weapon_index []) ∧
    ("stance", JVal.null) ∈ analyzeVuln emptyStats (build_weapon_index []) := by
  refine ⟨?_, ?_, ?_, ?_⟩
  · simp [analyzeVuln]
  · simp [bossVulnFields, fallbackVuln]
  · simp [bossVulnFields, fallbackVuln]
  · simp [analyzeVuln, emptyStats, safe_float, optQJVal]

/-- C9 (amended): every enriched weapon and boss the pipeline emits carries a
non-null name, built by safe_str with the type-specific default ("Unknown
Weapon" / "Unknown Boss"; the seven remaining enrichers share the same name
line with default "Unknown"); a weapon row with every source field missing
yields the documented default for every field; a boss with a resolved stat
record carries the full ten-field vulnerability profile while the no-stats
fallback carries only eight of them, omitting physical_negation and
status_resistance_values; and the stance field is null rather than a default
whenever its value is missing, in either branch. -/
theorem claim9_profile_fields (s : BossStats) (idx : WeaponIndex) :
    (∀ lore sc bd (row : WeaponRow) w, enrichWeaponRow lore sc bd row = .ok w →
      w.name = safe_str row.name "Unknown Weapon") ∧
    (∀ lore st (row : BossRow) b, enrichBossRow lore st idx row = .ok b →
      b.name = safe_str row.name "Unknown Boss" ∧ b.vuln = bossVulnFields st idx) ∧
    (∀ d, safe_str none d = d ∧ otherEnricherName none = "Unknown" ∧
      ∀ str2, otherEnricherName (some str2) = (pyStrip str2.data).asString) ∧
    enrichWeaponRow "" none none ⟨none, none, none, none, [], none, none, none, .nan, none⟩ =
      .ok ⟨"Unknown Weapon", "", "", "Unknown", "Standard", [], none, "None", none,
        "None", "None", "0", 0, 0⟩ ∧
    (analyzeVuln s idx).map (fun kv => kv.1) =
      ["weakest_physical", "physical_negation", "status_vulnerabilities",
       "status_resistance_values", "inflicts", "dominant_damage", "parryable",
       "stance", "defense", "recommended_weapons"] ∧
    fallbackVuln.map (fun kv => kv.1) =
      ["weakest_physical", "status_vulnerabilities", "inflicts",
       "dominant_damage", "parryable", "stance", "defense",
       "recommended_weapons"] ∧
    bossVulnFields (some s) idx = analyzeVuln s idx ∧
    bossVulnFields none idx = fallbackVuln ∧
    (safe_float s.stance_col none = none → ("stance", JVal.null) ∈ analyzeVuln s idx) ∧
    ("stance", JVal.null) ∈ fallbackVuln := by
  refine ⟨?_, ?_, ?_, by with_unfolding_all rfl, rfl, rfl, rfl, rfl, ?_, ?_⟩
  · intro lore sc bd row w h
    unfold enrichWeaponRow at h
    cases hpy : pyInt (row.dlc_col.getD (.num 0)) with
    | error e =>
      rw [hpy] at h
      exact absurd h (by simp)
    | ok d =>
      rw [hpy] at h
      injection h with h2
      rw [← h2]
  · intro lore st row b h
    unfold enrichBossRow at h
    cases hpy : pyInt (row.dlc_col.getD (.num 0)) with
    | error e =>
      rw [hpy] at h
      exact absurd h (by simp)
    | ok d =>
      rw [hpy] at h
      injection h with h2
      rw [← h2]
      exact ⟨rfl, rfl⟩
  · intro d
    exact ⟨rfl, rfl, fun str2 => rfl⟩
  · intro hst
    simp [analyzeVuln, hst, optQJVal]
  · simp [fallbackVuln]

/-- C9 witness: the no-source weapon row yields an entity named with the
documented default. -/
theorem claim9_witness :
    (⟨"Unknown Weapon", "", "", "Unknown", "Standard", [], none, "None", none,
      "None", "None", "0", 0, 0⟩ : EnrichedWeapon).name =
      safe_str none "Unknown Weapon" :=
  ((claim9_profile_fields emptyStats (build_weapon_index [])).1 "" none none
    ⟨none, none, none, none, [], none, none, none, .nan, none⟩ _
    (by with_unfolding_all rfl))

/-! ### C5: recommendation caps -/

lemma Recs.get_push (r : Recs) (b b' : Build) (e : RecEntry) :
    (r.push b e).get b' = if b' = b then r.get b' ++ [e] else r.get b' := by
  cases b <;> cases b' <;> simp [Recs.push, Recs.get]

/-- Every archetype holds at most 2 picks. -/
def capped (r : Recs) : Prop := ∀ b, (r.get b).length ≤ 2

lemma capped_init : capped ⟨[], [], [], [], []⟩ := by
  intro b
  cases b <;> simp [Recs.get]

lemma capped_guardedPush (r : Recs) (b : Build) (e : RecEntry) (c : Prop)
    [Decidable c] (hc : c → (r.get b).length < 2) (h : capped r) :
    capped (if c then r.push b e else r) := by
  split
  · rename_i hcond
    intro b'
    rw [Recs.get_push]
    split
    · rename_i hbb
      subst hbb
      have := hc hcond
      simp only [List.length_append, List.length_singleton]
      omega
    · exact h b'
  · exact h

lemma capped_distStep (r : Recs) (sw : ScoredWeapon) (h : capped r) :
    capped (distStep r sw) := by
  unfold distStep
  cases hb : scalingToBuild sw.weapon.primary_scaling with
  | none => exact h
  | some b => exact capped_guardedPush r b (mkRecEntry sw) _ (fun hlt => hlt) h

lemma capped_foldl {β : Type} (f : Recs → β → Recs)
    (hf : ∀ r a, capped r → capped (f r a)) :
    ∀ (l : List β) (r : Recs), capped r → capped (l.foldl f r) := by
  intro l
  induction l with
  | nil =>
    intro r h
    exact h
  | cons a l' ih =>
    intro r h
    exact ih (f r a) (hf r a h)

lemma capped_fbStep (scored : List ScoredWeapon) (sb : String × Build) (r : Recs)
    (h : capped r) : capped (fbStep scored r sb) := by
  unfold fbStep
  split
  · apply capped_foldl _ ?_ (scored.take 10) r h
    intro r' sw h'
    apply capped_guardedPush r' sb.2 (mkRecEntry sw) _ ?_ h'
    intro hcond
    have := of_decide_eq_true (Bool.and_elim_right hcond)
    exact this
  · exact h

lemma capped_final (scored : List ScoredWeapon) :
    capped (fallbackFill scored (distribute scored)) := by
  apply capped_foldl _ (fun r sb h => capped_fbStep scored sb r h) buildStats
  exact capped_foldl _ capped_distStep scored _ capped_init

/-- C5: every archetype list in the returned recommendation mapping holds at
most 2 entries (through both the primary distribution and the top-10
fallback), and archetypes with zero picks are absent. -/
theorem claim5_recommendation_caps (weakest : String) (vulns : List String)
    (idx : WeaponIndex) (details : List (String × String))
    (physNeg : List (String × ℚ)) :
    ∀ k l, (k, l) ∈ recommend_weapons weakest vulns idx details physNeg →
      l.length ≤ 2 ∧ l ≠ [] := by
  intro k l hmem
  unfold recommend_weapons recsOutput at hmem
  rw [List.mem_filter] at hmem
  obtain ⟨hmem', hne⟩ := hmem
  have hcap := capped_final (scoredCandidates weakest vulns idx details physNeg)
  constructor
  · simp only [List.mem_cons, List.mem_singleton, Prod.mk.injEq] at hmem'
    rcases hmem' with ⟨_, rfl⟩ | ⟨_, rfl⟩ | ⟨_, rfl⟩ | ⟨_, rfl⟩ | ⟨_, rfl⟩ | hfalse
    · exact hcap .strength
    · exact hcap .dexterity
    · exact hcap .intelligence
    · exact hcap .faith
    · exact hcap .arcane
    · simp at hfalse
  · simp only [Bool.not_eq_true'] at hne
    intro hl
    rw [hl] at hne
    simp at hne

/-- C5 witness: the caps applied to the recommendation output of the end-to-end
output. -/
theorem claim5_witness :
    ([(⟨"Rotvenom Blade", "Katana", "Standard", "Builds scarlet rot",
        "Exploits Standard weakness; Applies Scarlet Rot (boss resistance: 60/80)"⟩ :
      RecEntry)]).length ≤ 2 ∧
    ([(⟨"Rotvenom Blade", "Katana", "Standard", "Builds scarlet rot",
        "Exploits Standard weakness; Applies Scarlet Rot (boss resistance: 60/80)"⟩ :
      RecEntry)]) ≠ [] :=
  claim5_recommendation_caps (weakest_physical exBoss1) (statusVulns exBoss1) exIdx1
    (statusDetails exBoss1) (validPhys exBoss1) "arcane"
    [⟨"Rotvenom Blade", "Katana", "Standard", "Builds scarlet rot",
      "Exploits Standard weakness; Applies Scarlet Rot (boss resistance: 60/80)"⟩]
    (by with_unfolding_all decide)

end EldenFuse
